import Mathlib

/-
Verification of the doubly linked list implementation (src/lib.rs, src/methods.rs,
src/combinatorics.rs, src/cursors/cursor.rs, src/cursors/cursor_mut.rs).

Shallow embedding: the Rust heap of `Box`-allocated nodes is modelled as an
arena (a `List Node`) addressed by stable indices.  A raw pointer
`*mut Node<T>` becomes an `Option Nat` (`none` = null).  Allocation appends a
node at index `arena.length`.  Deallocation (`Box::from_raw` followed by drop)
does not erase the node from the arena: the stale record stays, exactly as the
freed allocation's bytes stay in memory — this is what lets the model observe
the use-after-free traversals that the Rust code performs when it follows a
dangling link.  Element values are specialised to `Int`.
-/

/-- Node<T> from src/lib.rs: one value plus raw prev/next pointers. -/
structure Node where
  val : Int
  prev : Option Nat
  next : Option Nat
deriving DecidableEq, Repr

instance : Inhabited Node := ⟨⟨0, none, none⟩⟩

/-- The heap of nodes; an address is an index into this list. -/
abbrev Arena := List Node

/-- Dereference an address.  Valid states only read live indices; the default
is never produced by the operations below on the states the theorems use. -/
def getN (a : Arena) (i : Nat) : Node := a.getD i default

/-- Write through an address. -/
def setN (a : Arena) (i : Nat) (n : Node) : Arena := a.set i n

/-- Dereference a possibly-null pointer, as the Rust code does with `(*ptr)`.
Dereferencing null is undefined behaviour in the source; the model returns the
default node there. -/
def getO (a : Arena) : Option Nat → Node
  | some i => getN a i
  | none => default

/-- LinkedList<T> from src/lib.rs: head and tail pointers. -/
structure LinkedList where
  head : Option Nat
  tail : Option Nat
deriving DecidableEq, Repr

/-- RemoveUnderCursorError: the single error value of the crate. -/
inductive RemoveUnderCursorError
  | mk
deriving DecidableEq, Repr

deriving instance DecidableEq for Except

namespace LinkedList

/-- LinkedList::new (src/methods.rs:26): both pointers null. -/
def new : LinkedList := ⟨none, none⟩

/-- LinkedList::is_empty (src/methods.rs:67): `head` is null. -/
def is_empty (l : LinkedList) : Bool := l.head = none

/-- Loop body of LinkedList::len (src/methods.rs:42): walk `next` pointers from
a given pointer, counting nodes until null.  The fuel argument only makes the
recursion structural; every state the theorems evaluate it on has a chain
shorter than the fuel passed by `len`. -/
def lenAux (a : Arena) : Option Nat → Nat → Nat
  | _, 0 => 0
  | none, _ => 0
  | some i, fuel + 1 => 1 + lenAux a (getN a i).next fuel

/-- LinkedList::len (src/methods.rs:42): full traversal count from `head`. -/
def len (a : Arena) (l : LinkedList) : Nat := lenAux a l.head (a.length + 1)

/-- LinkedList::push_front (src/methods.rs:107). -/
def push_front (a : Arena) (l : LinkedList) (elem : Int) : Arena × LinkedList :=
  let id := a.length
  let a := a ++ [⟨elem, none, l.head⟩]
  match l.head with
  | none => (a, ⟨some id, some id⟩)
  | some h => (setN a h { getN a h with prev := some id }, ⟨some id, l.tail⟩)

/-- LinkedList::push_back (src/methods.rs:138). -/
def push_back (a : Arena) (l : LinkedList) (elem : Int) : Arena × LinkedList :=
  let id := a.length
  let a := a ++ [⟨elem, l.tail, none⟩]
  match l.tail with
  | none => (a, ⟨some id, some id⟩)
  | some t => (setN a t { getN a t with next := some id }, ⟨l.head, some id⟩)

/-- LinkedList::pop_front (src/methods.rs:174).  The freed node stays in the
arena with its fields untouched, as the freed allocation does in memory; note
that the code does not clear the new head's `prev` pointer. -/
def pop_front (a : Arena) (l : LinkedList) : Option Int × Arena × LinkedList :=
  match l.head with
  | none => (none, a, l)
  | some h =>
    let node := getN a h
    let l : LinkedList := ⟨node.next, l.tail⟩
    let l : LinkedList := if l.head = none then ⟨l.head, none⟩ else l
    (some node.val, a, l)

/-- LinkedList::pop_back (src/methods.rs:208).  Note that the code does not
clear the new tail's `next` pointer: it keeps pointing at the freed node. -/
def pop_back (a : Arena) (l : LinkedList) : Option Int × Arena × LinkedList :=
  match l.tail with
  | none => (none, a, l)
  | some t =>
    let node := getN a t
    let l : LinkedList := ⟨l.head, node.prev⟩
    let l : LinkedList := if l.tail = none then ⟨none, l.tail⟩ else l
    (some node.val, a, l)

/-- LinkedList::append (src/methods.rs:329).  The code links
`self.tail.next = other.head` but never sets `other.head.prev`. -/
def append (a : Arena) (l other : LinkedList) : Arena × LinkedList × LinkedList :=
  if other.head = none then (a, l, other)
  else
    let a := match l.tail with
      | some t => setN a t { getN a t with next := other.head }
      | none => a
    let l : LinkedList := ⟨l.head, other.tail⟩
    let l : LinkedList := if l.head = none then ⟨other.head, l.tail⟩ else l
    (a, l, ⟨none, none⟩)

end LinkedList

/-- Iter from src/combinatorics.rs: two cursors and a size captured at
creation. -/
structure Iter where
  head : Option Nat
  tail : Option Nat
  size : Nat
deriving DecidableEq, Repr

namespace Iter

/-- Iter::next (src/combinatorics.rs:29). -/
def next (a : Arena) (it : Iter) : Option Int × Iter :=
  match it.head with
  | none => (none, it)
  | some h =>
    let node := getN a h
    let it : Iter := ⟨node.next, it.tail, it.size⟩
    let it : Iter := if it.head = none then ⟨it.head, none, it.size⟩ else it
    (some node.val, it)

/-- Iter::next_back (src/combinatorics.rs:71). -/
def next_back (a : Arena) (it : Iter) : Option Int × Iter :=
  match it.tail with
  | none => (none, it)
  | some t =>
    let node := getN a t
    let it : Iter := ⟨it.head, node.prev, it.size⟩
    let it : Iter := if it.tail = none then ⟨none, it.tail, it.size⟩ else it
    (some node.val, it)

/-- Iter::size_hint (src/combinatorics.rs:53): returns the stored size, which
no call ever updates. -/
def size_hint (it : Iter) : Nat × Option Nat := (it.size, some it.size)

end Iter

/-- LinkedList::iter (src/combinatorics.rs:250). -/
def LinkedList.iter (a : Arena) (l : LinkedList) : Iter :=
  ⟨l.head, l.tail, LinkedList.len a l⟩

/-- Repeated `next()` on an `Iter`, collecting the yielded values (the forward
traversal the spec speaks about).  Fuel bounds the walk. -/
def iterFwd (a : Arena) : Iter → Nat → List Int
  | _, 0 => []
  | it, fuel + 1 =>
    match Iter.next a it with
    | (none, _) => []
    | (some v, it') => v :: iterFwd a it' fuel

/-- Repeated `next_back()` on an `Iter`, collecting the yielded values (the
backward traversal the spec speaks about). -/
def iterBwd (a : Arena) : Iter → Nat → List Int
  | _, 0 => []
  | it, fuel + 1 =>
    match Iter.next_back a it with
    | (none, _) => []
    | (some v, it') => v :: iterBwd a it' fuel

/-- Cursor from src/cursors/cursor.rs: a read-only position handle.  The borrow
of the list is passed explicitly to each method. -/
structure Cursor where
  curr : Option Nat
  index : Nat
  length : Nat
deriving DecidableEq, Repr

/-- CursorMut from src/cursors/cursor_mut.rs: same bookkeeping, but its methods
may rewrite the arena and the list. -/
structure CursorMut where
  curr : Option Nat
  index : Nat
  length : Nat
deriving DecidableEq, Repr

/-- LinkedList::cursor_front (src/cursors/mod.rs:16). -/
def LinkedList.cursor_front (a : Arena) (l : LinkedList) : Option Cursor :=
  match l.head with
  | none => none
  | some _ => some ⟨l.head, 0, LinkedList.len a l⟩

/-- LinkedList::cursor_front_mut (src/cursors/mod.rs:59). -/
def LinkedList.cursor_front_mut (a : Arena) (l : LinkedList) : Option CursorMut :=
  match l.head with
  | none => none
  | some _ => some ⟨l.head, 0, LinkedList.len a l⟩

namespace Cursor

/-- Cursor::current (src/cursors/cursor.rs:32); the panic on a null `curr` is
modelled by `none`. -/
def current (a : Arena) (c : Cursor) : Option (Int × Nat) :=
  match c.curr with
  | none => none
  | some i => some ((getN a i).val, c.index)

/-- Cursor::move_next (src/cursors/cursor.rs:122). -/
def move_next (a : Arena) (l : LinkedList) (c : Cursor) : Cursor :=
  if c.index = c.length - 1 then ⟨l.head, 0, c.length⟩
  else ⟨(getO a c.curr).next, c.index + 1, c.length⟩

/-- Cursor::move_prev (src/cursors/cursor.rs:147). -/
def move_prev (a : Arena) (l : LinkedList) (c : Cursor) : Cursor :=
  if c.index = 0 then ⟨l.tail, c.length - 1, c.length⟩
  else ⟨(getO a c.curr).prev, c.index - 1, c.length⟩

/-- Cursor::step_by (src/cursors/cursor.rs:176).  The source computes a
(direction, steps) pair and then loops `move_prev` or `move_next` that many
times; here the dispatch on the pair is inlined, giving the same four
outcomes. -/
def step_by (a : Arena) (l : LinkedList) (c : Cursor) (steps : Nat) : Cursor :=
  let final_index := (c.index + steps % c.length) % c.length
  if final_index = c.index then c
  else if final_index > c.index then
    let dist := final_index - c.index
    let alt_dist := c.length - dist
    if alt_dist < dist then (fun c => move_prev a l c)^[alt_dist] c
    else (fun c => move_next a l c)^[dist] c
  else
    let dist := c.index - final_index
    let alt_dist := c.length - dist
    if dist < alt_dist then (fun c => move_prev a l c)^[dist] c
    else (fun c => move_next a l c)^[alt_dist] c

end Cursor

namespace CursorMut

/-- CursorMut::current_mut (src/cursors/cursor_mut.rs:26), value part. -/
def current_mut (a : Arena) (c : CursorMut) : Option (Int × Nat) :=
  match c.curr with
  | none => none
  | some i => some ((getN a i).val, c.index)

/-- CursorMut::move_next (src/cursors/cursor_mut.rs:151). -/
def move_next (a : Arena) (l : LinkedList) (c : CursorMut) : CursorMut :=
  if c.index = c.length - 1 then ⟨l.head, 0, c.length⟩
  else ⟨(getO a c.curr).next, c.index + 1, c.length⟩

/-- CursorMut::move_prev (src/cursors/cursor_mut.rs:126). -/
def move_prev (a : Arena) (l : LinkedList) (c : CursorMut) : CursorMut :=
  if c.index = 0 then ⟨l.tail, c.length - 1, c.length⟩
  else ⟨(getO a c.curr).prev, c.index - 1, c.length⟩

/-- CursorMut::step_by (src/cursors/cursor_mut.rs:180): move backward while the
current index exceeds the target, then forward up to the target; the second
range of the source is evaluated after the first loop has updated `index`, so
at most one of the two loops runs. -/
def step_by (a : Arena) (l : LinkedList) (c : CursorMut) (steps : Nat) : CursorMut :=
  let final_index := (c.index + steps % c.length) % c.length
  let c := if c.index > final_index
    then (fun c => move_prev a l c)^[c.index - final_index] c else c
  if c.index < final_index
    then (fun c => move_next a l c)^[final_index - c.index] c else c

/-- CursorMut::insert (src/cursors/cursor_mut.rs:218).  The code never updates
the `prev` pointer of the current node's former successor. -/
def insert (a : Arena) (l : LinkedList) (c : CursorMut) (elem : Int) :
    Arena × LinkedList × CursorMut :=
  let id := a.length
  let a := a ++ [⟨elem, c.curr, (getO a c.curr).next⟩]
  let a := match c.curr with
    | some ci => setN a ci { getN a ci with next := some id }
    | none => a
  let l : LinkedList := if c.index = c.length - 1 then ⟨l.head, some id⟩ else l
  let c : CursorMut := ⟨c.curr, c.index, c.length + 1⟩
  (a, l, move_next a l c)

/-- CursorMut::remove (src/cursors/cursor_mut.rs:258). -/
def remove (a : Arena) (l : LinkedList) (c : CursorMut) :
    Except RemoveUnderCursorError Int × Arena × LinkedList × CursorMut :=
  if c.length < 2 then (.error .mk, a, l, c)
  else
    let node := getO a c.curr
    let al : Arena × LinkedList := match node.prev with
      | some p => (setN a p { getN a p with next := node.next }, l)
      | none => (a, ⟨node.next, l.tail⟩)
    let a := al.1
    let l := al.2
    let alc : Arena × LinkedList × CursorMut := match node.next with
      | some nx => (setN a nx { getN a nx with prev := node.prev }, l,
          ⟨some nx, c.index, c.length⟩)
      | none => (a, ⟨l.head, node.prev⟩, ⟨l.head, c.index, c.length⟩)
    let a := alc.1
    let l := alc.2.1
    let c := alc.2.2
    let c : CursorMut := ⟨c.curr, c.index, c.length - 1⟩
    let c : CursorMut := ⟨c.curr, c.index % c.length, c.length⟩
    (.ok node.val, a, l, c)

/-- CursorMut::split (src/cursors/cursor_mut.rs:311).  The code never clears
the `prev` pointer of the new list's head. -/
def split (a : Arena) (l : LinkedList) (c : CursorMut) :
    Arena × LinkedList × CursorMut × LinkedList :=
  match (getO a c.curr).next with
  | none => (a, l, c, ⟨none, none⟩)
  | some nx =>
    let new_list : LinkedList := ⟨some nx, l.tail⟩
    let a := match c.curr with
      | some ci => setN a ci { getN a ci with next := none }
      | none => a
    let l : LinkedList := ⟨l.head, c.curr⟩
    let c : CursorMut := ⟨c.curr, c.index, LinkedList.len a l⟩
    (a, l, c, new_list)

/-- CursorMut::splice (src/cursors/cursor_mut.rs:339).  The code never sets
`other.head.prev` to the current node. -/
def splice (a : Arena) (l : LinkedList) (c : CursorMut) (other : LinkedList) :
    Arena × LinkedList × CursorMut × LinkedList :=
  if other.head = none then (a, l, c, other)
  else
    let other_len := LinkedList.len a other
    let al : Arena × LinkedList := match (getO a c.curr).next with
      | some nx =>
        let a := setN a nx { getN a nx with prev := other.tail }
        let a := match other.tail with
          | some ot => setN a ot { getN a ot with next := (getO a c.curr).next }
          | none => a
        (a, l)
      | none => (a, ⟨l.head, other.tail⟩)
    let a := al.1
    let l := al.2
    let a := match c.curr with
      | some ci => setN a ci { getN a ci with next := other.head }
      | none => a
    let c : CursorMut := ⟨other.tail, c.index + other_len, c.length + other_len⟩
    (a, l, c, ⟨none, none⟩)

end CursorMut

/-- LinkedList::remove_at (src/methods.rs:382).  The `unwrap` on
`cursor_front_mut` cannot fail on the non-empty path; the model returns the
error there to keep the function total. -/
def LinkedList.remove_at (a : Arena) (l : LinkedList) (index : Nat) :
    Except RemoveUnderCursorError Int × Arena × LinkedList :=
  if l.head = none then (.error .mk, a, l)
  else
    let len := LinkedList.len a l
    let index := index % len
    if index = 0 then
      let r := LinkedList.pop_front a l
      (match r.1 with | some x => .ok x | none => .error .mk, r.2.1, r.2.2)
    else if index = len - 1 then
      let r := LinkedList.pop_back a l
      (match r.1 with | some x => .ok x | none => .error .mk, r.2.1, r.2.2)
    else
      match LinkedList.cursor_front_mut a l with
      | none => (.error .mk, a, l)
      | some c =>
        let c := CursorMut.step_by a l c (index - 1)
        let r := CursorMut.remove a l c
        (r.1, r.2.1, r.2.2.1)

/-- Claim C1.  The claim states that after any sequence of push/pop operations
`len()` equals pushes minus successful pops, because each pop reattaches the
new end's link to empty.  The code's `pop_back` never clears the new tail's
`next` pointer (src/methods.rs:208-228 has no write to `(*self.tail).next`),
so after `push_front 1; push_front 2; pop_back()` — one push minus one pop
should give length 1 — the successor chain walked by `len()` still runs
through the freed node and `len()` returns 2.  (In the real execution this
walk is a use-after-free; the model keeps the freed node's bytes.) -/
theorem pop_back_leaves_dangling_next :
    (let s1 := LinkedList.push_front ([] : Arena) LinkedList.new 1
     let s2 := LinkedList.push_front s1.1 s1.2 2
     let s3 := LinkedList.pop_back s2.1 s2.2
     s3.1 = some 1 ∧ LinkedList.len s3.2.1 s3.2.2 = 2 ∧
       LinkedList.is_empty s3.2.2 = false) := by decide

/-- Claim C2.  The claim states that every public operation preserves link
symmetry: whenever `A.next = B` then `B.prev = A`.  `append`
(src/methods.rs:329-351) sets `self.tail.next = other.head` but never sets
`other.head.prev`, so after `[1].append([2,3])` node 1 points forward to
node 2 while node 2's predecessor is still empty.  The repo's own test
`test_list_append` then pushes 4 and pops from the back expecting
4, 3, 2, 1; the broken backward link makes the fourth `pop_back` lose the
first element and return `None`. -/
theorem append_breaks_link_symmetry :
    (let tA := LinkedList.push_front ([] : Arena) LinkedList.new 1
     let tB1 := LinkedList.push_back tA.1 LinkedList.new 2
     let tB2 := LinkedList.push_back tB1.1 tB1.2 3
     let tC := LinkedList.append tB2.1 tA.2 tB2.2
     let tD := LinkedList.push_back tC.1 tC.2.1 4
     let p1 := LinkedList.pop_back tD.1 tD.2
     let p2 := LinkedList.pop_back p1.2.1 p1.2.2
     let p3 := LinkedList.pop_back p2.2.1 p2.2.2
     let p4 := LinkedList.pop_back p3.2.1 p3.2.2
     ((getN tC.1 0).next = some 1 ∧ (getN tC.1 1).prev = none) ∧
       (p1.1 = some 4 ∧ p2.1 = some 3 ∧ p3.1 = some 2 ∧ p4.1 = none)) := by
  decide

/-- Claim C3.  The claim states that for a middle index `remove_at(i)` removes
and returns the element at position `i mod n`.  The facade
(src/methods.rs:382-400) steps the cursor to `index - 1` and then calls
`CursorMut::remove`, which removes the node *under* the cursor
(src/cursors/cursor_mut.rs:258-296) — one position too early.  On
`[1,2,3,4,5]`, `remove_at(2)` returns 2 and leaves `[1,3,4,5]`, while the
claim (and the repo's own `test_remove_at`, which asserts the result is 3)
requires it to remove the 3. -/
theorem remove_at_removes_previous_element :
    (let q1 := LinkedList.push_back ([] : Arena) LinkedList.new 1
     let q2 := LinkedList.push_back q1.1 q1.2 2
     let q3 := LinkedList.push_back q2.1 q2.2 3
     let q4 := LinkedList.push_back q3.1 q3.2 4
     let q5 := LinkedList.push_back q4.1 q4.2 5
     let qr := LinkedList.remove_at q5.1 q5.2 2
     qr.1 = .ok 2 ∧
       iterFwd qr.2.1 (LinkedList.iter qr.2.1 qr.2.2) 10 = [1, 3, 4, 5]) := by
  decide

/-- Claim C4.  The claim states that backward traversal yields the exact
reverse of forward traversal for every list obtainable through the public
operations.  `pop_front` (src/methods.rs:174-194) never clears the new head's
`prev` pointer, so on the list obtained by `push_back 1; push_back 2;
pop_front()` the forward traversal yields `[2]` while `next_back`
(src/combinatorics.rs:71-91) follows the stale backward link out of the live
list and yields `[2, 1]` — reading the freed node. -/
theorem backward_traversal_not_reverse_after_pop_front :
    (let w1 := LinkedList.push_back ([] : Arena) LinkedList.new 1
     let w2 := LinkedList.push_back w1.1 w1.2 2
     let w3 := LinkedList.pop_front w2.1 w2.2
     let wit := LinkedList.iter w3.2.1 w3.2.2
     iterFwd w3.2.1 wit 10 = [2] ∧ iterBwd w3.2.1 wit 10 = [2, 1] ∧
       iterBwd w3.2.1 wit 10 ≠ (iterFwd w3.2.1 wit 10).reverse) := by decide

/-- Claim C5.  The claim states that mixed `next()`/`next_back()` calls on one
iterator meet in the middle, yielding every element exactly once.  The two
ends of `Iter` (src/combinatorics.rs:29-48 and 71-91) are only compared
against null, never against each other, so on `[1,2,3]` the call sequence
`next_back, next, next, next` yields 3, 1, 2, 3: four values from a
three-element list, with 3 yielded by both directions. -/
theorem interleaved_iteration_revisits_element :
    (let u1 := LinkedList.push_back ([] : Arena) LinkedList.new 1
     let u2 := LinkedList.push_back u1.1 u1.2 2
     let u3 := LinkedList.push_back u2.1 u2.2 3
     let it0 := LinkedList.iter u3.1 u3.2
     let b1 := Iter.next_back u3.1 it0
     let f1 := Iter.next u3.1 b1.2
     let f2 := Iter.next u3.1 f1.2
     let f3 := Iter.next u3.1 f2.2
     b1.1 = some 3 ∧ f1.1 = some 1 ∧ f2.1 = some 2 ∧ f3.1 = some 3 ∧
       LinkedList.len u3.1 u3.2 = 3) := by decide

/-- Claim C9.  The claim states that `size_hint()` always returns exactly the
number of elements remaining.  `Iter.size` is set at creation
(src/combinatorics.rs:250-257) and never decremented by `next` or
`next_back`, so on `[1,2]` after one `next()` the hint is still `(2, Some 2)`
although exactly one element remains (the following `next()` yields it and
the one after returns `None`). -/
theorem size_hint_not_decremented :
    (let w1 := LinkedList.push_back ([] : Arena) LinkedList.new 1
     let w2 := LinkedList.push_back w1.1 w1.2 2
     let it0 := LinkedList.iter w2.1 w2.2
     let n1 := Iter.next w2.1 it0
     let n2 := Iter.next w2.1 n1.2
     let n3 := Iter.next w2.1 n2.2
     n1.1 = some 1 ∧ Iter.size_hint n1.2 = (2, some 2) ∧ n2.1 = some 2 ∧
       n3.1 = none) := by decide

/-
Representation invariant: a well-formed doubly linked list, as the spec's
data-model section describes it.  `fwdChain a p ids xs q` says that starting
from pointer `p` the successor chain passes exactly through the addresses
`ids` carrying the values `xs`, and that the last node's `next` is `q`.
-/

/-- Successor-chain predicate over the arena. -/
def fwdChain (a : Arena) : Option Nat → List Nat → List Int → Option Nat → Prop
  | p, [], xs, q => xs = [] ∧ p = q
  | p, i :: is, xs, q =>
    match xs with
    | [] => False
    | x :: xs' => p = some i ∧ (getN a i).val = x ∧ fwdChain a (getN a i).next is xs' q

@[simp] theorem fwdChain_nil {a : Arena} {p q : Option Nat} {xs : List Int} :
    fwdChain a p [] xs q ↔ (xs = [] ∧ p = q) := Iff.rfl

@[simp] theorem fwdChain_cons_nil {a : Arena} {p q : Option Nat} {i : Nat} {is : List Nat} :
    fwdChain a p (i :: is) [] q ↔ False := Iff.rfl

@[simp] theorem fwdChain_cons_cons {a : Arena} {p q : Option Nat} {i : Nat} {is : List Nat}
    {x : Int} {xs : List Int} :
    fwdChain a p (i :: is) (x :: xs) q ↔
      (p = some i ∧ (getN a i).val = x ∧ fwdChain a (getN a i).next is xs q) := Iff.rfl

/-- Decision procedure for `fwdChain`, so concrete instances close by `decide`. -/
def decFwdChain (a : Arena) : (ids : List Nat) → (p : Option Nat) → (xs : List Int) →
    (q : Option Nat) → Decidable (fwdChain a p ids xs q)
  | [], p, xs, q => decidable_of_iff (xs = [] ∧ p = q) (by simp)
  | _ :: _, _, [], _ => isFalse (by simp)
  | i :: is, p, x :: xs, q =>
    have : Decidable (fwdChain a (getN a i).next is xs q) := decFwdChain a is _ xs q
    decidable_of_iff (p = some i ∧ (getN a i).val = x ∧ fwdChain a (getN a i).next is xs q)
      (by simp)

instance {a : Arena} {p q : Option Nat} {ids : List Nat} {xs : List Int} :
    Decidable (fwdChain a p ids xs q) := decFwdChain a ids p xs q

/-- The head pointer of a chain segment: the first address, or the exit pointer
when the segment is empty. -/
def ptrOf (ids : List Nat) (q : Option Nat) : Option Nat :=
  match ids with
  | [] => q
  | i :: _ => some i

@[simp] theorem ptrOf_nil {q : Option Nat} : ptrOf [] q = q := rfl

@[simp] theorem ptrOf_cons {i : Nat} {is : List Nat} {q : Option Nat} :
    ptrOf (i :: is) q = some i := rfl

theorem ptrOf_none_eq_getElem? (ids : List Nat) : ptrOf ids none = ids[0]? := by
  cases ids <;> simp [ptrOf]

theorem ptrOf_drop_none (ids : List Nat) (k : Nat) :
    ptrOf (ids.drop k) none = ids[k]? := by
  rw [ptrOf_none_eq_getElem?]
  simp

theorem fwdChain_length {a : Arena} {p q : Option Nat} {ids : List Nat} {xs : List Int}
    (h : fwdChain a p ids xs q) : ids.length = xs.length := by
  induction ids generalizing p xs with
  | nil => obtain ⟨h1, _⟩ := h; simp [h1]
  | cons i is ih =>
    cases xs with
    | nil => simp at h
    | cons x xs => obtain ⟨_, _, h3⟩ := h; simpa using ih h3

theorem fwdChain_ptr {a : Arena} {p q : Option Nat} {ids : List Nat} {xs : List Int}
    (h : fwdChain a p ids xs q) : p = ptrOf ids q := by
  cases ids with
  | nil => exact h.2
  | cons i is =>
    cases xs with
    | nil => simp at h
    | cons x xs => exact h.1

theorem fwdChain_append {a : Arena} {p r q : Option Nat} {ids₁ ids₂ : List Nat}
    {xs₁ xs₂ : List Int} (h1 : fwdChain a p ids₁ xs₁ r) (h2 : fwdChain a r ids₂ xs₂ q) :
    fwdChain a p (ids₁ ++ ids₂) (xs₁ ++ xs₂) q := by
  induction ids₁ generalizing p xs₁ with
  | nil => obtain ⟨hx, hp⟩ := h1; subst hx; subst hp; simpa using h2
  | cons i is ih =>
    cases xs₁ with
    | nil => simp at h1
    | cons x xs =>
      obtain ⟨hp, hv, hc⟩ := h1
      exact ⟨hp, hv, ih hc⟩

theorem fwdChain_split {a : Arena} {p q : Option Nat} {ids₁ ids₂ : List Nat}
    {xs₁ xs₂ : List Int} (hlen : ids₁.length = xs₁.length)
    (h : fwdChain a p (ids₁ ++ ids₂) (xs₁ ++ xs₂) q) :
    fwdChain a p ids₁ xs₁ (ptrOf ids₂ q) ∧ fwdChain a (ptrOf ids₂ q) ids₂ xs₂ q := by
  induction ids₁ generalizing p xs₁ with
  | nil =>
    have hx : xs₁ = [] := by simpa using hlen.symm
    subst hx
    simp only [List.nil_append] at h
    have hp := fwdChain_ptr h
    exact ⟨⟨rfl, hp⟩, hp ▸ h⟩
  | cons i is ih =>
    cases xs₁ with
    | nil => simp at hlen
    | cons x xs =>
      simp only [List.cons_append] at h
      obtain ⟨hp, hv, hc⟩ := h
      have := ih (by simpa using hlen) hc
      exact ⟨⟨hp, hv, this.1⟩, this.2⟩

theorem fwdChain_get {a : Arena} {p q : Option Nat} {ids : List Nat} {xs : List Int}
    (h : fwdChain a p ids xs q) :
    ∀ k i, ids[k]? = some i →
      (getN a i).val = xs.getD k 0 ∧ (getN a i).next = ptrOf (ids.drop (k + 1)) q := by
  induction ids generalizing p xs with
  | nil => intro k i hk; simp at hk
  | cons j is ih =>
    cases xs with
    | nil => simp at h
    | cons x xs =>
      obtain ⟨hp, hv, hc⟩ := h
      intro k i hk
      cases k with
      | zero =>
        simp only [List.getElem?_cons_zero, Option.some.injEq] at hk
        subst hk
        refine ⟨by simpa using hv, ?_⟩
        simpa using fwdChain_ptr hc
      | succ k =>
        simp only [List.getElem?_cons_succ] at hk
        simpa using ih hc k i hk

theorem fwdChain_frame {a a' : Arena} {p q : Option Nat} {ids : List Nat} {xs : List Int}
    (hfr : ∀ i ∈ ids, (getN a' i).val = (getN a i).val ∧ (getN a' i).next = (getN a i).next)
    (h : fwdChain a p ids xs q) : fwdChain a' p ids xs q := by
  induction ids generalizing p xs with
  | nil => exact h
  | cons i is ih =>
    cases xs with
    | nil => simp at h
    | cons x xs =>
      obtain ⟨hp, hv, hc⟩ := h
      have hi := hfr i (by simp)
      refine ⟨hp, hi.1.trans hv, ?_⟩
      rw [hi.2]
      exact ih (fun j hj => hfr j (by simp [hj])) hc

theorem getN_setN_self {a : Arena} {i : Nat} {n : Node} (h : i < a.length) :
    getN (setN a i n) i = n := by
  simp [getN, setN, List.getD_eq_getElem?_getD, List.getElem?_set_self h]

theorem getN_setN_ne {a : Arena} {i j : Nat} {n : Node} (h : j ≠ i) :
    getN (setN a i n) j = getN a j := by
  simp [getN, setN, List.getD_eq_getElem?_getD, List.getElem?_set_ne (Ne.symm h)]

@[simp] theorem setN_length {a : Arena} {i : Nat} {n : Node} :
    (setN a i n).length = a.length := List.length_set a i n

theorem lenAux_fwdChain {a : Arena} {p : Option Nat} {ids : List Nat} {xs : List Int}
    (h : fwdChain a p ids xs none) :
    ∀ fuel, ids.length ≤ fuel → LinkedList.lenAux a p fuel = ids.length := by
  induction ids generalizing p xs with
  | nil =>
    obtain ⟨_, hp⟩ := h
    subst hp
    intro fuel _
    cases fuel <;> simp [LinkedList.lenAux]
  | cons i is ih =>
    cases xs with
    | nil => simp at h
    | cons x xs =>
      obtain ⟨hp, _, hc⟩ := h
      subst hp
      intro fuel hfuel
      cases fuel with
      | zero => simp at hfuel
      | succ f =>
        simp only [LinkedList.lenAux, List.length_cons]
        rw [ih hc f (by simpa using hfuel)]
        omega

theorem length_le_of_nodup_bounded {ids : List Nat} {n : Nat} (hnd : ids.Nodup)
    (hb : ∀ i ∈ ids, i < n) : ids.length ≤ n := by
  calc ids.length = ids.toFinset.card := (List.toFinset_card_of_nodup hnd).symm
    _ ≤ (Finset.range n).card := by
        refine Finset.card_le_card ?_
        intro x hx
        simp only [List.mem_toFinset] at hx
        simpa using hb x hx
    _ = n := Finset.card_range n

/-- A well-formed doubly linked list state: the successor chain from `head`
spells out `ids`/`xs` and ends at null, `tail` is the last node, every
backward link matches the forward link, addresses are distinct and live.
This is the spec's data-model invariant (spec.md section 3). -/
def Represents (a : Arena) (l : LinkedList) (ids : List Nat) (xs : List Int) : Prop :=
  fwdChain a l.head ids xs none ∧
  l.tail = ids.getLast? ∧
  (∀ k, k < ids.length →
      (getO a ids[k]?).prev = if k = 0 then none else ids[k - 1]?) ∧
  ids.Nodup ∧
  (∀ i ∈ ids, i < a.length)

instance {a : Arena} {l : LinkedList} {ids : List Nat} {xs : List Int} :
    Decidable (Represents a l ids xs) := by
  unfold Represents
  infer_instance

theorem Represents.head_eq {a : Arena} {l : LinkedList} {ids : List Nat} {xs : List Int}
    (h : Represents a l ids xs) : l.head = ids[0]? := by
  rw [fwdChain_ptr h.1, ptrOf_none_eq_getElem?]

theorem Represents.length_eq {a : Arena} {l : LinkedList} {ids : List Nat} {xs : List Int}
    (h : Represents a l ids xs) : ids.length = xs.length := fwdChain_length h.1

theorem Represents.len_eq {a : Arena} {l : LinkedList} {ids : List Nat} {xs : List Int}
    (h : Represents a l ids xs) : LinkedList.len a l = ids.length := by
  have hle : ids.length ≤ a.length :=
    length_le_of_nodup_bounded h.2.2.2.1 h.2.2.2.2
  exact lenAux_fwdChain h.1 (a.length + 1) (by omega)

theorem Represents.get {a : Arena} {l : LinkedList} {ids : List Nat} {xs : List Int}
    (h : Represents a l ids xs) {k : Nat} {i : Nat} (hk : ids[k]? = some i) :
    (getN a i).val = xs.getD k 0 ∧ (getN a i).next = ids[k + 1]? ∧
      (getN a i).prev = (if k = 0 then none else ids[k - 1]?) := by
  have h1 := fwdChain_get h.1 k i hk
  have hklt : k < ids.length := by
    by_contra hge
    rw [List.getElem?_eq_none (by omega)] at hk
    exact absurd hk (by simp)
  have h2 := h.2.2.1 k hklt
  rw [hk] at h2
  exact ⟨h1.1, by rw [h1.2, ptrOf_drop_none], h2⟩

/-- A read-only cursor standing at position `j` of a represented list (the
cursor-state invariant of spec.md section 3). -/
def CursorOK (a : Arena) (l : LinkedList) (ids : List Nat) (xs : List Int)
    (c : Cursor) (j : Nat) : Prop :=
  Represents a l ids xs ∧ c.curr = ids[j]? ∧ c.index = j ∧ j < ids.length ∧
    c.length = ids.length

/-- A mutable cursor standing at position `j` of a represented list. -/
def CursorMutOK (a : Arena) (l : LinkedList) (ids : List Nat) (xs : List Int)
    (c : CursorMut) (j : Nat) : Prop :=
  Represents a l ids xs ∧ c.curr = ids[j]? ∧ c.index = j ∧ j < ids.length ∧
    c.length = ids.length

theorem Cursor.move_next_lt {a : Arena} {l : LinkedList} {ids : List Nat} {xs : List Int}
    {c : Cursor} {j : Nat} (h : CursorOK a l ids xs c j) (hj : j + 1 < ids.length) :
    CursorOK a l ids xs (Cursor.move_next a l c) (j + 1) := by
  obtain ⟨hr, hcurr, hidx, hjn, hlen⟩ := h
  have hij : ids[j]? = some (ids.get ⟨j, hjn⟩) := by
    simp [List.getElem?_eq_getElem hjn]
  have hget := hr.get hij
  unfold Cursor.move_next
  rw [hidx, hlen, if_neg (by omega)]
  refine ⟨hr, ?_, rfl, hj, rfl⟩
  rw [hcurr, hij]
  show (getN a (ids.get ⟨j, hjn⟩)).next = ids[j + 1]?
  exact hget.2.1

theorem Cursor.move_next_wrap {a : Arena} {l : LinkedList} {ids : List Nat} {xs : List Int}
    {c : Cursor} {j : Nat} (h : CursorOK a l ids xs c j) (hj : j + 1 = ids.length) :
    CursorOK a l ids xs (Cursor.move_next a l c) 0 := by
  obtain ⟨hr, hcurr, hidx, hjn, hlen⟩ := h
  unfold Cursor.move_next
  rw [hidx, hlen, if_pos (by omega)]
  exact ⟨hr, hr.head_eq, rfl, by omega, rfl⟩

theorem Cursor.move_prev_pos {a : Arena} {l : LinkedList} {ids : List Nat} {xs : List Int}
    {c : Cursor} {j : Nat} (h : CursorOK a l ids xs c j) (hj : 0 < j) :
    CursorOK a l ids xs (Cursor.move_prev a l c) (j - 1) := by
  obtain ⟨hr, hcurr, hidx, hjn, hlen⟩ := h
  have hij : ids[j]? = some (ids.get ⟨j, hjn⟩) := by
    simp [List.getElem?_eq_getElem hjn]
  have hget := hr.get hij
  unfold Cursor.move_prev
  rw [hidx, if_neg (by omega)]
  refine ⟨hr, ?_, rfl, by omega, hlen⟩
  rw [hcurr, hij]
  show (getN a (ids.get ⟨j, hjn⟩)).prev = ids[j - 1]?
  rw [hget.2.2, if_neg (by omega)]

theorem Cursor.move_prev_zero {a : Arena} {l : LinkedList} {ids : List Nat} {xs : List Int}
    {c : Cursor} (h : CursorOK a l ids xs c 0) :
    CursorOK a l ids xs (Cursor.move_prev a l c) (ids.length - 1) := by
  obtain ⟨hr, hcurr, hidx, hjn, hlen⟩ := h
  unfold Cursor.move_prev
  rw [hidx, if_pos rfl, hlen]
  refine ⟨hr, ?_, rfl, by omega, rfl⟩
  rw [hr.2.1, List.getLast?_eq_getElem?]

theorem Cursor.iter_next_le {a : Arena} {l : LinkedList} {ids : List Nat} {xs : List Int}
    {c : Cursor} {j : Nat} (h : CursorOK a l ids xs c j) :
    ∀ k, j + k < ids.length →
      CursorOK a l ids xs ((fun c => Cursor.move_next a l c)^[k] c) (j + k) := by
  intro k
  induction k generalizing c j with
  | zero => intro _; simpa using h
  | succ k ih =>
    intro hk
    rw [Function.iterate_succ_apply]
    have h1 := Cursor.move_next_lt h (by omega)
    have h2 := ih h1 (by omega)
    have hje : j + 1 + k = j + (k + 1) := by omega
    rwa [hje] at h2

theorem Cursor.iter_prev_le {a : Arena} {l : LinkedList} {ids : List Nat} {xs : List Int}
    {c : Cursor} {j : Nat} (h : CursorOK a l ids xs c j) :
    ∀ k, k ≤ j →
      CursorOK a l ids xs ((fun c => Cursor.move_prev a l c)^[k] c) (j - k) := by
  intro k
  induction k generalizing c j with
  | zero => intro _; simpa using h
  | succ k ih =>
    intro hk
    rw [Function.iterate_succ_apply]
    have h1 := Cursor.move_prev_pos h (by omega)
    have := ih h1 (by omega)
    have hje : j - 1 - k = j - (k + 1) := by omega
    rwa [hje] at this

theorem Cursor.iter_next_wrap {a : Arena} {l : LinkedList} {ids : List Nat} {xs : List Int}
    {c : Cursor} {j : Nat} (h : CursorOK a l ids xs c j) (k : Nat)
    (hk1 : ids.length ≤ j + k) (hk2 : k ≤ ids.length) :
    CursorOK a l ids xs ((fun c => Cursor.move_next a l c)^[k] c) (j + k - ids.length) := by
  have hjn := h.2.2.2.1
  have h1 := Cursor.iter_next_le h (ids.length - 1 - j) (by omega)
  have h2 : j + (ids.length - 1 - j) + 1 = ids.length := by omega
  have h3 := Cursor.move_next_wrap h1 h2
  have h4 := Cursor.iter_next_le h3 (j + k - ids.length) (by omega)
  have hdec : k = (j + k - ids.length) + (1 + (ids.length - 1 - j)) := by omega
  have hiter : (fun c => Cursor.move_next a l c)^[k] c =
      (fun c => Cursor.move_next a l c)^[j + k - ids.length]
        (Cursor.move_next a l ((fun c => Cursor.move_next a l c)^[ids.length - 1 - j] c)) := by
    conv_lhs => rw [hdec]
    rw [Function.iterate_add_apply, Function.iterate_add_apply, Function.iterate_one]
  rw [hiter]
  simpa using h4

theorem Cursor.iter_prev_gt {a : Arena} {l : LinkedList} {ids : List Nat} {xs : List Int}
    {c : Cursor} {j : Nat} (h : CursorOK a l ids xs c j) (k : Nat)
    (hk1 : j < k) (hk2 : k ≤ ids.length) :
    CursorOK a l ids xs ((fun c => Cursor.move_prev a l c)^[k] c) (j + ids.length - k) := by
  have hjn := h.2.2.2.1
  have h1 := Cursor.iter_prev_le h j (le_refl j)
  rw [Nat.sub_self] at h1
  have h2 := Cursor.move_prev_zero h1
  have h3 := Cursor.iter_prev_le h2 (k - j - 1) (by omega)
  have hdec : k = (k - j - 1) + (1 + j) := by omega
  have hiter : (fun c => Cursor.move_prev a l c)^[k] c =
      (fun c => Cursor.move_prev a l c)^[k - j - 1]
        (Cursor.move_prev a l ((fun c => Cursor.move_prev a l c)^[j] c)) := by
    conv_lhs => rw [hdec]
    rw [Function.iterate_add_apply, Function.iterate_add_apply, Function.iterate_one]
  have hje : ids.length - 1 - (k - j - 1) = j + ids.length - k := by omega
  rw [hiter, ← hje]
  exact h3

theorem Cursor.step_by_ok {a : Arena} {l : LinkedList} {ids : List Nat} {xs : List Int}
    {c : Cursor} {j : Nat} (h : CursorOK a l ids xs c j) (k : Nat) :
    CursorOK a l ids xs (Cursor.step_by a l c k) ((j + k) % ids.length) := by
  have hjn := h.2.2.2.1
  have hidx := h.2.2.1
  have hlen := h.2.2.2.2
  have hn0 : 0 < ids.length := by omega
  have hfe : (j + k % ids.length) % ids.length = (j + k) % ids.length := by
    conv_rhs => rw [Nat.add_mod, Nat.mod_eq_of_lt hjn]
  rw [← hfe]
  simp only [Cursor.step_by]
  rw [hidx, hlen]
  set F := (j + k % ids.length) % ids.length with hF
  have hFlt : F < ids.length := Nat.mod_lt _ hn0
  by_cases h1 : F = j
  · rw [if_pos h1, h1]
    exact h
  · rw [if_neg h1]
    by_cases h2 : F > j
    · rw [if_pos h2]
      by_cases h3 : ids.length - (F - j) < F - j
      · rw [if_pos h3]
        have h4 := Cursor.iter_prev_gt h (ids.length - (F - j)) (by omega) (by omega)
        have heq : j + ids.length - (ids.length - (F - j)) = F := by omega
        rwa [heq] at h4
      · rw [if_neg h3]
        have h4 := Cursor.iter_next_le h (F - j) (by omega)
        have heq : j + (F - j) = F := by omega
        rwa [heq] at h4
    · rw [if_neg h2]
      by_cases h3 : j - F < ids.length - (j - F)
      · rw [if_pos h3]
        have h4 := Cursor.iter_prev_le h (j - F) (by omega)
        have heq : j - (j - F) = F := by omega
        rwa [heq] at h4
      · rw [if_neg h3]
        have h4 := Cursor.iter_next_wrap h (ids.length - (j - F)) (by omega) (by omega)
        have heq : j + (ids.length - (j - F)) - ids.length = F := by omega
        rwa [heq] at h4

theorem CursorMut.mut_move_next_lt {a : Arena} {l : LinkedList} {ids : List Nat} {xs : List Int}
    {c : CursorMut} {j : Nat} (h : CursorMutOK a l ids xs c j) (hj : j + 1 < ids.length) :
    CursorMutOK a l ids xs (CursorMut.move_next a l c) (j + 1) := by
  obtain ⟨hr, hcurr, hidx, hjn, hlen⟩ := h
  have hij : ids[j]? = some (ids.get ⟨j, hjn⟩) := by
    simp [List.getElem?_eq_getElem hjn]
  have hget := hr.get hij
  unfold CursorMut.move_next
  rw [hidx, hlen, if_neg (by omega)]
  refine ⟨hr, ?_, rfl, hj, rfl⟩
  rw [hcurr, hij]
  show (getN a (ids.get ⟨j, hjn⟩)).next = ids[j + 1]?
  exact hget.2.1

theorem CursorMut.mut_move_prev_pos {a : Arena} {l : LinkedList} {ids : List Nat} {xs : List Int}
    {c : CursorMut} {j : Nat} (h : CursorMutOK a l ids xs c j) (hj : 0 < j) :
    CursorMutOK a l ids xs (CursorMut.move_prev a l c) (j - 1) := by
  obtain ⟨hr, hcurr, hidx, hjn, hlen⟩ := h
  have hij : ids[j]? = some (ids.get ⟨j, hjn⟩) := by
    simp [List.getElem?_eq_getElem hjn]
  have hget := hr.get hij
  unfold CursorMut.move_prev
  rw [hidx, if_neg (by omega)]
  refine ⟨hr, ?_, rfl, by omega, hlen⟩
  rw [hcurr, hij]
  show (getN a (ids.get ⟨j, hjn⟩)).prev = ids[j - 1]?
  rw [hget.2.2, if_neg (by omega)]

theorem CursorMut.mut_iter_next_le {a : Arena} {l : LinkedList} {ids : List Nat} {xs : List Int}
    {c : CursorMut} {j : Nat} (h : CursorMutOK a l ids xs c j) :
    ∀ k, j + k < ids.length →
      CursorMutOK a l ids xs ((fun c => CursorMut.move_next a l c)^[k] c) (j + k) := by
  intro k
  induction k generalizing c j with
  | zero => intro _; simpa using h
  | succ k ih =>
    intro hk
    rw [Function.iterate_succ_apply]
    have h1 := CursorMut.mut_move_next_lt h (by omega)
    have h2 := ih h1 (by omega)
    have hje : j + 1 + k = j + (k + 1) := by omega
    rwa [hje] at h2

theorem CursorMut.mut_iter_prev_le {a : Arena} {l : LinkedList} {ids : List Nat} {xs : List Int}
    {c : CursorMut} {j : Nat} (h : CursorMutOK a l ids xs c j) :
    ∀ k, k ≤ j →
      CursorMutOK a l ids xs ((fun c => CursorMut.move_prev a l c)^[k] c) (j - k) := by
  intro k
  induction k generalizing c j with
  | zero => intro _; simpa using h
  | succ k ih =>
    intro hk
    rw [Function.iterate_succ_apply]
    have h1 := CursorMut.mut_move_prev_pos h (by omega)
    have h2 := ih h1 (by omega)
    have hje : j - 1 - k = j - (k + 1) := by omega
    rwa [hje] at h2

theorem CursorMut.mut_step_by_ok {a : Arena} {l : LinkedList} {ids : List Nat} {xs : List Int}
    {c : CursorMut} {j : Nat} (h : CursorMutOK a l ids xs c j) (k : Nat) :
    CursorMutOK a l ids xs (CursorMut.step_by a l c k) ((j + k) % ids.length) := by
  have hjn := h.2.2.2.1
  have hidx := h.2.2.1
  have hlen := h.2.2.2.2
  have hn0 : 0 < ids.length := by omega
  have hfe : (j + k % ids.length) % ids.length = (j + k) % ids.length := by
    conv_rhs => rw [Nat.add_mod, Nat.mod_eq_of_lt hjn]
  rw [← hfe]
  simp only [CursorMut.step_by]
  rw [hidx, hlen]
  set F := (j + k % ids.length) % ids.length with hF
  have hFlt : F < ids.length := Nat.mod_lt _ hn0
  by_cases h1 : j > F
  · rw [if_pos h1]
    have h4 := CursorMut.mut_iter_prev_le h (j - F) (by omega)
    have heq : j - (j - F) = F := by omega
    rw [heq] at h4
    rw [h4.2.2.1, if_neg (lt_irrefl F)]
    exact h4
  · rw [if_neg h1]
    rw [hidx]
    by_cases h2 : j < F
    · rw [if_pos h2]
      have h4 := CursorMut.mut_iter_next_le h (F - j) (by omega)
      have heq : j + (F - j) = F := by omega
      rwa [heq] at h4
    · rw [if_neg h2]
      have hjF : j = F := by omega
      rw [← hjF]
      exact hjF ▸ h

instance {a : Arena} {l : LinkedList} {ids : List Nat} {xs : List Int} {c : Cursor} {j : Nat} :
    Decidable (CursorOK a l ids xs c j) := by
  unfold CursorOK
  infer_instance

instance {a : Arena} {l : LinkedList} {ids : List Nat} {xs : List Int} {c : CursorMut}
    {j : Nat} : Decidable (CursorMutOK a l ids xs c j) := by
  unfold CursorMutOK
  infer_instance

theorem Cursor.current_ok {a : Arena} {l : LinkedList} {ids : List Nat} {xs : List Int}
    {c : Cursor} {j : Nat} (h : CursorOK a l ids xs c j) :
    Cursor.current a c = some (xs.getD j 0, j) := by
  obtain ⟨hr, hcurr, hidx, hjn, hlen⟩ := h
  have hij : ids[j]? = some ids[j] := List.getElem?_eq_getElem hjn
  have hget := hr.get hij
  rw [hij] at hcurr
  simp [Cursor.current, hcurr, hidx, hget.1, List.getD_eq_getElem?_getD]

theorem CursorMut.current_mut_ok {a : Arena} {l : LinkedList} {ids : List Nat} {xs : List Int}
    {c : CursorMut} {j : Nat} (h : CursorMutOK a l ids xs c j) :
    CursorMut.current_mut a c = some (xs.getD j 0, j) := by
  obtain ⟨hr, hcurr, hidx, hjn, hlen⟩ := h
  have hij : ids[j]? = some ids[j] := List.getElem?_eq_getElem hjn
  have hget := hr.get hij
  rw [hij] at hcurr
  simp [CursorMut.current_mut, hcurr, hidx, hget.1, List.getD_eq_getElem?_getD]

/-- Claim C8.  On a well-formed list of length `n > 0` with a read-only cursor
and a mutable cursor both at index `j`, `step_by k` moves either cursor to
index `(j + k) mod n` — whichever walking direction the source chooses — and
`current()` then returns the element at that index; and following `step_by k`
with `step_by (n - k)` for `k ≤ n` restores index `j`. -/
theorem step_by_lands_on_mod {a : Arena} {l : LinkedList} {ids : List Nat} {xs : List Int}
    {c : Cursor} {cm : CursorMut} {j : Nat}
    (hc : CursorOK a l ids xs c j) (hm : CursorMutOK a l ids xs cm j) (k : Nat) :
    (Cursor.step_by a l c k).index = (j + k) % ids.length ∧
    Cursor.current a (Cursor.step_by a l c k) =
      some (xs.getD ((j + k) % ids.length) 0, (j + k) % ids.length) ∧
    (CursorMut.step_by a l cm k).index = (j + k) % ids.length ∧
    CursorMut.current_mut a (CursorMut.step_by a l cm k) =
      some (xs.getD ((j + k) % ids.length) 0, (j + k) % ids.length) ∧
    (k ≤ ids.length →
      (Cursor.step_by a l (Cursor.step_by a l c k) (ids.length - k)).index = j ∧
      (CursorMut.step_by a l (CursorMut.step_by a l cm k) (ids.length - k)).index = j) := by
  have h1 := Cursor.step_by_ok hc k
  have h2 := CursorMut.mut_step_by_ok hm k
  have hjn := hc.2.2.2.1
  refine ⟨h1.2.2.1, Cursor.current_ok h1, h2.2.2.1, CursorMut.current_mut_ok h2, ?_⟩
  intro hk
  have h3 := Cursor.step_by_ok h1 (ids.length - k)
  have h4 := CursorMut.mut_step_by_ok h2 (ids.length - k)
  have harith : ((j + k) % ids.length + (ids.length - k)) % ids.length = j := by
    rw [Nat.mod_add_mod]
    have hje : j + k + (ids.length - k) = j + ids.length := by omega
    rw [hje, Nat.add_mod_right, Nat.mod_eq_of_lt hjn]
  rw [harith] at h3 h4
  exact ⟨h3.2.2.1, h4.2.2.1⟩

/-- Witness for C8: the list `[10, 20, 30]`, both cursors at index 1, stepped
by 7 and then by 3 - 7 mod 3. -/
theorem step_by_lands_on_mod_witness :
    (Cursor.step_by [⟨10, none, some 1⟩, ⟨20, some 0, some 2⟩, ⟨30, some 1, none⟩]
        ⟨some 0, some 2⟩ ⟨some 1, 1, 3⟩ 7).index = (1 + 7) % 3 ∧
    Cursor.current [⟨10, none, some 1⟩, ⟨20, some 0, some 2⟩, ⟨30, some 1, none⟩]
      (Cursor.step_by [⟨10, none, some 1⟩, ⟨20, some 0, some 2⟩, ⟨30, some 1, none⟩]
        ⟨some 0, some 2⟩ ⟨some 1, 1, 3⟩ 7) =
      some (([10, 20, 30] : List Int).getD ((1 + 7) % 3) 0, (1 + 7) % 3) ∧
    (CursorMut.step_by [⟨10, none, some 1⟩, ⟨20, some 0, some 2⟩, ⟨30, some 1, none⟩]
        ⟨some 0, some 2⟩ ⟨some 1, 1, 3⟩ 7).index = (1 + 7) % 3 ∧
    CursorMut.current_mut [⟨10, none, some 1⟩, ⟨20, some 0, some 2⟩, ⟨30, some 1, none⟩]
      (CursorMut.step_by [⟨10, none, some 1⟩, ⟨20, some 0, some 2⟩, ⟨30, some 1, none⟩]
        ⟨some 0, some 2⟩ ⟨some 1, 1, 3⟩ 7) =
      some (([10, 20, 30] : List Int).getD ((1 + 7) % 3) 0, (1 + 7) % 3) ∧
    (7 ≤ ([0, 1, 2] : List Nat).length →
      (Cursor.step_by [⟨10, none, some 1⟩, ⟨20, some 0, some 2⟩, ⟨30, some 1, none⟩]
          ⟨some 0, some 2⟩
          (Cursor.step_by [⟨10, none, some 1⟩, ⟨20, some 0, some 2⟩, ⟨30, some 1, none⟩]
            ⟨some 0, some 2⟩ ⟨some 1, 1, 3⟩ 7) (([0, 1, 2] : List Nat).length - 7)).index = 1 ∧
      (CursorMut.step_by [⟨10, none, some 1⟩, ⟨20, some 0, some 2⟩, ⟨30, some 1, none⟩]
          ⟨some 0, some 2⟩
          (CursorMut.step_by [⟨10, none, some 1⟩, ⟨20, some 0, some 2⟩, ⟨30, some 1, none⟩]
            ⟨some 0, some 2⟩ ⟨some 1, 1, 3⟩ 7) (([0, 1, 2] : List Nat).length - 7)).index = 1) :=
  @step_by_lands_on_mod
    [⟨10, none, some 1⟩, ⟨20, some 0, some 2⟩, ⟨30, some 1, none⟩] ⟨some 0, some 2⟩
    [0, 1, 2] [10, 20, 30] ⟨some 1, 1, 3⟩ ⟨some 1, 1, 3⟩ 1 (by decide) (by decide) 7

theorem fwdChain_set_notmem {a : Arena} {p q : Option Nat} {ids : List Nat} {xs : List Int}
    (w : Nat) (nd : Node) (hw : w ∉ ids) (h : fwdChain a p ids xs q) :
    fwdChain (setN a w nd) p ids xs q := by
  refine fwdChain_frame (fun i hi => ?_) h
  have hne : i ≠ w := by
    intro he
    exact hw (he ▸ hi)
  rw [getN_setN_ne hne]
  exact ⟨rfl, rfl⟩

theorem fwdChain_set_keep {a : Arena} {p q : Option Nat} {ids : List Nat} {xs : List Int}
    (w : Nat) (nd : Node) (hv : nd.val = (getN a w).val) (hn : nd.next = (getN a w).next)
    (hlt : w < a.length) (h : fwdChain a p ids xs q) :
    fwdChain (setN a w nd) p ids xs q := by
  refine fwdChain_frame (fun i hi => ?_) h
  by_cases hiw : i = w
  · subst hiw
    rw [getN_setN_self hlt]
    exact ⟨hv, hn⟩
  · rw [getN_setN_ne hiw]
    exact ⟨rfl, rfl⟩

theorem nodup_getElem?_inj {ids : List Nat} (hnd : ids.Nodup) {k1 k2 v : Nat}
    (h1 : ids[k1]? = some v) (h2 : ids[k2]? = some v) : k1 = k2 := by
  rw [List.getElem?_eq_some_iff] at h1 h2
  obtain ⟨hk1, he1⟩ := h1
  obtain ⟨hk2, he2⟩ := h2
  exact (List.Nodup.getElem_inj_iff hnd).mp (he1.trans he2.symm)

theorem nodup_not_mem_take {ids : List Nat} (hnd : ids.Nodup) {k m v : Nat}
    (hv : ids[k]? = some v) (hmk : m ≤ k) : v ∉ ids.take m := by
  intro hmem
  obtain ⟨r, hr⟩ := List.mem_iff_getElem?.mp hmem
  have hrm : r < m := by
    have hlen := (List.getElem?_eq_some_iff.mp hr).1
    simp only [List.length_take] at hlen
    omega
  rw [List.getElem?_take_of_lt hrm] at hr
  have := nodup_getElem?_inj hnd hr hv
  omega

theorem nodup_not_mem_drop {ids : List Nat} (hnd : ids.Nodup) {k m v : Nat}
    (hv : ids[k]? = some v) (hkm : k < m) : v ∉ ids.drop m := by
  intro hmem
  obtain ⟨r, hr⟩ := List.mem_iff_getElem?.mp hmem
  rw [List.getElem?_drop] at hr
  have := nodup_getElem?_inj hnd hr hv
  omega

theorem nodup_getElem?_ne {ids : List Nat} (hnd : ids.Nodup) {k1 k2 v1 v2 : Nat}
    (h1 : ids[k1]? = some v1) (h2 : ids[k2]? = some v2) (hne : k1 ≠ k2) : v1 ≠ v2 := by
  intro he
  exact hne (nodup_getElem?_inj hnd h1 (he ▸ h2))

theorem fwdChain_take {a : Arena} {p q : Option Nat} {ids : List Nat} {xs : List Int}
    (h : fwdChain a p ids xs q) (k : Nat) :
    fwdChain a p (ids.take k) (xs.take k) (ptrOf (ids.drop k) q) := by
  have hl := fwdChain_length h
  have hs := @fwdChain_split a p q (ids.take k) (ids.drop k) (xs.take k) (xs.drop k)
    (by simp [hl]) (by rw [List.take_append_drop, List.take_append_drop]; exact h)
  exact hs.1

theorem fwdChain_drop {a : Arena} {p q : Option Nat} {ids : List Nat} {xs : List Int}
    (h : fwdChain a p ids xs q) (k : Nat) :
    fwdChain a (ptrOf (ids.drop k) q) (ids.drop k) (xs.drop k) q := by
  have hl := fwdChain_length h
  have hs := @fwdChain_split a p q (ids.take k) (ids.drop k) (xs.take k) (xs.drop k)
    (by simp [hl]) (by rw [List.take_append_drop, List.take_append_drop]; exact h)
  exact hs.2

theorem remove_ok {a : Arena} {l : LinkedList} {ids : List Nat} {xs : List Int}
    {c : CursorMut} {j : Nat} (h : CursorMutOK a l ids xs c j) (hn : 2 ≤ ids.length) :
    (CursorMut.remove a l c).1 = .ok (xs.getD j 0) ∧
    (CursorMut.remove a l c).2.2.2.length = ids.length - 1 ∧
    (CursorMut.remove a l c).2.2.2.index = j % (ids.length - 1) ∧
    (CursorMut.remove a l c).2.2.2.curr =
      (if j = ids.length - 1 then ids[0]? else ids[j + 1]?) ∧
    fwdChain (CursorMut.remove a l c).2.1 (CursorMut.remove a l c).2.2.1.head
      (ids.eraseIdx j) (xs.eraseIdx j) none ∧
    (CursorMut.remove a l c).2.1.length = a.length := by
  obtain ⟨hr, hcurr, hidx, hjn, hlen⟩ := h
  have hlx := hr.length_eq
  have hnodup : ids.Nodup := hr.2.2.2.1
  have hbnd := hr.2.2.2.2
  have hij : ids[j]? = some ids[j] := List.getElem?_eq_getElem hjn
  have hget := hr.get hij
  have hcurr2 : c.curr = some ids[j] := hcurr.trans hij
  simp only [CursorMut.remove]
  rw [hlen, if_neg (by omega), hcurr2]
  simp only [getO]
  by_cases hj0 : j = 0
  · -- j = 0: the removed node is the head, its successor exists since n ≥ 2
    subst hj0
    have hjn1 : ¬ (0 = ids.length - 1) := by omega
    have h1lt : 1 < ids.length := by omega
    have hi1 : ids[1]? = some ids[1] := List.getElem?_eq_getElem h1lt
    have hprev : (getN a ids[0]).prev = none := by rw [hget.2.2]; simp
    have hnext : (getN a ids[0]).next = some ids[1] := by rw [hget.2.1]; exact hi1
    rw [hprev, hnext]
    simp only []
    refine ⟨by rw [hget.1], trivial, by rw [hidx], by rw [if_neg hjn1]; exact hi1.symm, ?_,
      by simp⟩
    have hchain := fwdChain_drop hr.1 1
    rw [ptrOf_drop_none, hi1] at hchain
    have hlt1 : ids[1] < a.length := hbnd _ (List.getElem_mem h1lt)
    have hkeep := fwdChain_set_keep (ids[1])
      ⟨(getN a ids[1]).val, none, (getN a ids[1]).next⟩ rfl rfl hlt1 hchain
    rw [List.eraseIdx_eq_take_drop_succ, List.eraseIdx_eq_take_drop_succ]
    simpa using hkeep
  · -- j ≥ 1: the removed node has a predecessor ids[j-1]
    have hjm1 : j - 1 < ids.length := by omega
    have hijm : ids[j - 1]? = some (ids[j - 1]) := List.getElem?_eq_getElem hjm1
    have hprev : (getN a ids[j]).prev = some (ids[j - 1]) := by
      rw [hget.2.2, if_neg hj0]; exact hijm
    have hpmem : ids[j - 1] ∈ ids := List.getElem_mem hjm1
    have hplt : ids[j - 1] < a.length := hbnd _ hpmem
    -- the front of the chain, split just before the predecessor
    have htake := fwdChain_take hr.1 j
    rw [ptrOf_drop_none, hij] at htake
    have htakej : ids.take j = ids.take (j - 1) ++ [ids[j - 1]] := by
      have hj : j = (j - 1) + 1 := by omega
      conv_lhs => rw [hj]
      rw [List.take_succ, hijm]
      simp
    have htakexj : xs.take j = xs.take (j - 1) ++ [xs.getD (j - 1) 0] := by
      have hjm1x : j - 1 < xs.length := by omega
      have hj : j = (j - 1) + 1 := by omega
      conv_lhs => rw [hj]
      rw [List.take_succ, List.getElem?_eq_getElem hjm1x]
      simp [List.getD_eq_getElem?_getD, List.getElem?_eq_getElem hjm1x]
    have htake2 : fwdChain a l.head (ids.take (j - 1) ++ [ids[j - 1]])
        (xs.take (j - 1) ++ [xs.getD (j - 1) 0]) (some (ids[j])) := by
      rw [← htakej, ← htakexj]
      exact htake
    have hsplit := fwdChain_split (by simp; omega) htake2
    have hfront := hsplit.1
    have hsing := hsplit.2
    rw [ptrOf_cons] at hfront hsing
    have hsingval : (getN a (ids[j - 1])).val = xs.getD (j - 1) 0 := hsing.2.1
    have hpnotintake : ids[j - 1] ∉ ids.take (j - 1) :=
      nodup_not_mem_take hnodup hijm (le_refl _)
    by_cases hjl : j = ids.length - 1
    · -- j = n - 1: the removed node is the tail
      have hnext : (getN a ids[j]).next = none := by
        rw [hget.2.1]
        exact List.getElem?_eq_none (by omega)
      rw [hprev, hnext]
      simp only []
      refine ⟨by rw [hget.1], trivial, by rw [hidx], by rw [if_pos hjl]; exact hr.head_eq, ?_,
        by simp⟩
      have hfront2 := fwdChain_set_notmem (ids[j - 1])
        ⟨(getN a (ids[j - 1])).val, (getN a (ids[j - 1])).prev, none⟩ hpnotintake hfront
      have hsing2 : fwdChain (setN a (ids[j - 1])
          ⟨(getN a (ids[j - 1])).val, (getN a (ids[j - 1])).prev, none⟩)
          (some (ids[j - 1])) [ids[j - 1]] [xs.getD (j - 1) 0] none := by
        refine ⟨rfl, ?_, ?_⟩
        · rw [getN_setN_self hplt]
          exact hsingval
        · rw [getN_setN_self hplt]
          simp
      have hcomp := fwdChain_append hfront2 hsing2
      have herase : ids.eraseIdx j = ids.take (j - 1) ++ [ids[j - 1]] := by
        rw [List.eraseIdx_eq_take_drop_succ, List.drop_eq_nil_of_le (by omega), List.append_nil,
          htakej]
      have herasex : xs.eraseIdx j = xs.take (j - 1) ++ [xs.getD (j - 1) 0] := by
        rw [List.eraseIdx_eq_take_drop_succ, List.drop_eq_nil_of_le (by omega), List.append_nil,
          htakexj]
      rw [herase, herasex]
      exact hcomp
    · -- middle: both neighbours exist
      have hj1lt : j + 1 < ids.length := by omega
      have hij1 : ids[j + 1]? = some (ids[j + 1]) := List.getElem?_eq_getElem hj1lt
      have hnext : (getN a ids[j]).next = some (ids[j + 1]) := by rw [hget.2.1]; exact hij1
      rw [hprev, hnext]
      simp only []
      have hnxmem : ids[j + 1] ∈ ids := List.getElem_mem hj1lt
      have hnxlt : ids[j + 1] < a.length := hbnd _ hnxmem
      have hnxnep : ids[j + 1] ≠ ids[j - 1] := nodup_getElem?_ne hnodup hij1 hijm (by omega)
      refine ⟨by rw [hget.1], trivial, by rw [hidx], by rw [if_neg hjl]; exact hij1.symm, ?_,
        by simp⟩
      have hread_p : getN (setN (setN a (ids[j - 1])
            ⟨(getN a (ids[j - 1])).val, (getN a (ids[j - 1])).prev, some (ids[j + 1])⟩)
            (ids[j + 1])
            ⟨(getN (setN a (ids[j - 1])
                ⟨(getN a (ids[j - 1])).val, (getN a (ids[j - 1])).prev, some (ids[j + 1])⟩)
                (ids[j + 1])).val, some (ids[j - 1]),
              (getN (setN a (ids[j - 1])
                ⟨(getN a (ids[j - 1])).val, (getN a (ids[j - 1])).prev, some (ids[j + 1])⟩)
                (ids[j + 1])).next⟩) (ids[j - 1]) =
          ⟨(getN a (ids[j - 1])).val, (getN a (ids[j - 1])).prev, some (ids[j + 1])⟩ := by
        rw [getN_setN_ne (Ne.symm hnxnep), getN_setN_self hplt]
      have hfront3 := fwdChain_set_notmem (ids[j + 1])
        ⟨(getN (setN a (ids[j - 1])
            ⟨(getN a (ids[j - 1])).val, (getN a (ids[j - 1])).prev, some (ids[j + 1])⟩)
            (ids[j + 1])).val, some (ids[j - 1]),
          (getN (setN a (ids[j - 1])
            ⟨(getN a (ids[j - 1])).val, (getN a (ids[j - 1])).prev, some (ids[j + 1])⟩)
            (ids[j + 1])).next⟩
        (nodup_not_mem_take hnodup hij1 (by omega))
        (fwdChain_set_notmem (ids[j - 1])
          ⟨(getN a (ids[j - 1])).val, (getN a (ids[j - 1])).prev, some (ids[j + 1])⟩
          hpnotintake hfront)
      have hsing2 : fwdChain (setN (setN a (ids[j - 1])
            ⟨(getN a (ids[j - 1])).val, (getN a (ids[j - 1])).prev, some (ids[j + 1])⟩)
            (ids[j + 1])
            ⟨(getN (setN a (ids[j - 1])
                ⟨(getN a (ids[j - 1])).val, (getN a (ids[j - 1])).prev, some (ids[j + 1])⟩)
                (ids[j + 1])).val, some (ids[j - 1]),
              (getN (setN a (ids[j - 1])
                ⟨(getN a (ids[j - 1])).val, (getN a (ids[j - 1])).prev, some (ids[j + 1])⟩)
                (ids[j + 1])).next⟩)
          (some (ids[j - 1])) [ids[j - 1]] [xs.getD (j - 1) 0] (some (ids[j + 1])) := by
        refine ⟨rfl, ?_, ?_⟩
        · rw [hread_p]
          exact hsingval
        · rw [hread_p]
          simp
      have hdrop := fwdChain_drop hr.1 (j + 1)
      rw [ptrOf_drop_none, hij1] at hdrop
      have hdrop2 := fwdChain_set_notmem (ids[j - 1])
        ⟨(getN a (ids[j - 1])).val, (getN a (ids[j - 1])).prev, some (ids[j + 1])⟩
        (nodup_not_mem_drop hnodup hijm (by omega)) hdrop
      have hdrop3 := fwdChain_set_keep (ids[j + 1])
        ⟨(getN (setN a (ids[j - 1])
            ⟨(getN a (ids[j - 1])).val, (getN a (ids[j - 1])).prev, some (ids[j + 1])⟩)
            (ids[j + 1])).val, some (ids[j - 1]),
          (getN (setN a (ids[j - 1])
            ⟨(getN a (ids[j - 1])).val, (getN a (ids[j - 1])).prev, some (ids[j + 1])⟩)
            (ids[j + 1])).next⟩ rfl rfl (by simpa using hnxlt) hdrop2
      have hcomp := fwdChain_append hfront3 (fwdChain_append hsing2 hdrop3)
      have herase : ids.eraseIdx j = ids.take (j - 1) ++ ([ids[j - 1]] ++ ids.drop (j + 1)) := by
        rw [List.eraseIdx_eq_take_drop_succ, htakej, List.append_assoc]
      have herasex : xs.eraseIdx j =
          xs.take (j - 1) ++ ([xs.getD (j - 1) 0] ++ xs.drop (j + 1)) := by
        rw [List.eraseIdx_eq_take_drop_succ, htakexj, List.append_assoc]
      rw [herase, herasex]
      exact hcomp

/-- Claim C7.  On a well-formed list with a mutable cursor at index `j`,
`remove()` returns the "cannot remove" error exactly when the list has fewer
than two elements; otherwise it returns the pre-removal current value,
decreases the length (both the list's and the cursor's bookkeeping) by exactly
one, advances the cursor to the former successor — wrapping to the new head
when the removed node was the tail — and reduces the index modulo the new
length. -/
theorem remove_err_iff_and_spec {a : Arena} {l : LinkedList} {ids : List Nat} {xs : List Int}
    {c : CursorMut} {j : Nat} (h : CursorMutOK a l ids xs c j) :
    ((CursorMut.remove a l c).1 = .error .mk ↔ xs.length < 2) ∧
    (2 ≤ xs.length →
      (CursorMut.remove a l c).1 = .ok (xs.getD j 0) ∧
      LinkedList.len (CursorMut.remove a l c).2.1 (CursorMut.remove a l c).2.2.1 =
        xs.length - 1 ∧
      (CursorMut.remove a l c).2.2.2.length = xs.length - 1 ∧
      (CursorMut.remove a l c).2.2.2.index = j % (xs.length - 1) ∧
      (CursorMut.remove a l c).2.2.2.curr =
        (if j = xs.length - 1 then ids[0]? else ids[j + 1]?)) := by
  have hlx : ids.length = xs.length := h.1.length_eq
  constructor
  · constructor
    · intro herr
      by_contra hge
      have hok := (remove_ok h (by omega)).1
      rw [hok] at herr
      exact absurd herr (by simp)
    · intro hlt
      have hlen := h.2.2.2.2
      simp only [CursorMut.remove]
      rw [hlen, if_pos (by omega)]
  · intro hge
    have hro := remove_ok h (by omega)
    obtain ⟨hok, hclen, hcidx, hccurr, hchain, halen⟩ := hro
    refine ⟨hok, ?_, by rw [hclen, hlx], by rw [hcidx, hlx], by rw [hccurr, hlx]⟩
    have hnd : (ids.eraseIdx j).Nodup := List.Nodup.eraseIdx j h.1.2.2.2.1
    have hb : ∀ i ∈ ids.eraseIdx j, i < (CursorMut.remove a l c).2.1.length := by
      intro i hi
      rw [halen]
      exact h.1.2.2.2.2 i ((List.eraseIdx_sublist ids j).mem hi)
    have hble := length_le_of_nodup_bounded hnd hb
    have hlenerase : (ids.eraseIdx j).length = ids.length - 1 :=
      List.length_eraseIdx_of_lt h.2.2.2.1
    unfold LinkedList.len
    rw [lenAux_fwdChain hchain _ (by omega), hlenerase, hlx]

/-- Witness for C7: removing the middle element of `[10, 20, 30]` through a
cursor at index 1. -/
theorem remove_err_iff_and_spec_witness :
    ((CursorMut.remove [⟨10, none, some 1⟩, ⟨20, some 0, some 2⟩, ⟨30, some 1, none⟩]
        ⟨some 0, some 2⟩ ⟨some 1, 1, 3⟩).1 = .error .mk ↔
      ([10, 20, 30] : List Int).length < 2) ∧
    (2 ≤ ([10, 20, 30] : List Int).length →
      (CursorMut.remove [⟨10, none, some 1⟩, ⟨20, some 0, some 2⟩, ⟨30, some 1, none⟩]
          ⟨some 0, some 2⟩ ⟨some 1, 1, 3⟩).1 = .ok (([10, 20, 30] : List Int).getD 1 0) ∧
      LinkedList.len
        (CursorMut.remove [⟨10, none, some 1⟩, ⟨20, some 0, some 2⟩, ⟨30, some 1, none⟩]
          ⟨some 0, some 2⟩ ⟨some 1, 1, 3⟩).2.1
        (CursorMut.remove [⟨10, none, some 1⟩, ⟨20, some 0, some 2⟩, ⟨30, some 1, none⟩]
          ⟨some 0, some 2⟩ ⟨some 1, 1, 3⟩).2.2.1 = ([10, 20, 30] : List Int).length - 1 ∧
      (CursorMut.remove [⟨10, none, some 1⟩, ⟨20, some 0, some 2⟩, ⟨30, some 1, none⟩]
          ⟨some 0, some 2⟩ ⟨some 1, 1, 3⟩).2.2.2.length = ([10, 20, 30] : List Int).length - 1 ∧
      (CursorMut.remove [⟨10, none, some 1⟩, ⟨20, some 0, some 2⟩, ⟨30, some 1, none⟩]
          ⟨some 0, some 2⟩ ⟨some 1, 1, 3⟩).2.2.2.index =
        1 % (([10, 20, 30] : List Int).length - 1) ∧
      (CursorMut.remove [⟨10, none, some 1⟩, ⟨20, some 0, some 2⟩, ⟨30, some 1, none⟩]
          ⟨some 0, some 2⟩ ⟨some 1, 1, 3⟩).2.2.2.curr =
        (if 1 = ([10, 20, 30] : List Int).length - 1 then ([0, 1, 2] : List Nat)[0]?
         else ([0, 1, 2] : List Nat)[1 + 1]?)) :=
  @remove_err_iff_and_spec
    [⟨10, none, some 1⟩, ⟨20, some 0, some 2⟩, ⟨30, some 1, none⟩] ⟨some 0, some 2⟩
    [0, 1, 2] [10, 20, 30] ⟨some 1, 1, 3⟩ 1 (by decide)

theorem CursorMut.move_next_length {a : Arena} {l : LinkedList} {c : CursorMut} :
    (CursorMut.move_next a l c).length = c.length := by
  unfold CursorMut.move_next
  split <;> rfl

theorem CursorMut.move_prev_length {a : Arena} {l : LinkedList} {c : CursorMut} :
    (CursorMut.move_prev a l c).length = c.length := by
  unfold CursorMut.move_prev
  split <;> rfl

theorem CursorMut.mut_iter_next_length {a : Arena} {l : LinkedList} (m : Nat) (c : CursorMut) :
    ((fun c => CursorMut.move_next a l c)^[m] c).length = c.length := by
  induction m generalizing c with
  | zero => rfl
  | succ m ih =>
    rw [Function.iterate_succ_apply]
    rw [ih]
    exact CursorMut.move_next_length

theorem CursorMut.mut_iter_prev_length {a : Arena} {l : LinkedList} (m : Nat) (c : CursorMut) :
    ((fun c => CursorMut.move_prev a l c)^[m] c).length = c.length := by
  induction m generalizing c with
  | zero => rfl
  | succ m ih =>
    rw [Function.iterate_succ_apply]
    rw [ih]
    exact CursorMut.move_prev_length

theorem CursorMut.step_by_length {a : Arena} {l : LinkedList} (c : CursorMut) (k : Nat) :
    (CursorMut.step_by a l c k).length = c.length := by
  simp only [CursorMut.step_by]
  split
  · split
    · rw [CursorMut.mut_iter_next_length, CursorMut.mut_iter_prev_length]
    · rw [CursorMut.mut_iter_prev_length]
  · split
    · rw [CursorMut.mut_iter_next_length]
    · rfl

theorem CursorMut.remove_fst {a : Arena} {l : LinkedList} {c : CursorMut}
    (h2 : 2 ≤ c.length) : (CursorMut.remove a l c).1 = .ok (getO a c.curr).val := by
  simp only [CursorMut.remove]
  rw [if_neg (by omega)]

/-- Claim C10.  `remove_at(i)` fails exactly on the empty list (which it
leaves unchanged, returning the error immediately); on every non-empty list it
succeeds for every index `i`.  In particular on a one-element list it returns
the sole element and leaves the list empty for any `i`: the facade routes
index 0 through `pop_front`, so `CursorMut::remove`'s last-node restriction
never applies at the facade boundary. -/
theorem remove_at_err_iff_empty {a : Arena} {l : LinkedList} {ids : List Nat} {xs : List Int}
    (h : Represents a l ids xs) (i : Nat) :
    ((LinkedList.remove_at a l i).1 = .error .mk ↔ xs = []) ∧
    (∀ v : Int, xs = [v] →
      (LinkedList.remove_at a l i).1 = .ok v ∧
      (LinkedList.remove_at a l i).2.2.head = none ∧
      (LinkedList.remove_at a l i).2.2.tail = none) := by
  have hlx : ids.length = xs.length := h.length_eq
  by_cases hemp : xs = []
  · have hids : ids = [] := List.length_eq_zero.mp (by rw [hlx, hemp]; rfl)
    have hhead : l.head = none := by rw [h.head_eq, hids]; rfl
    constructor
    · simp [LinkedList.remove_at, hhead, hemp]
    · intro v hv
      rw [hemp] at hv
      exact absurd hv (by simp)
  · have hne : ids ≠ [] := by
      intro h0
      rw [h0] at hlx
      exact hemp (List.length_eq_zero.mp hlx.symm)
    have hlen0 : 0 < ids.length := List.length_pos.mpr hne
    have hi0 : ids[0]? = some ids[0] := List.getElem?_eq_getElem hlen0
    have hhead : l.head = some ids[0] := by rw [h.head_eq]; exact hi0
    have hheadne : ¬(l.head = none) := by simp [hhead]
    have hlenv : LinkedList.len a l = ids.length := h.len_eq
    simp only [LinkedList.remove_at]
    rw [if_neg hheadne, hlenv]
    have hidxlt : i % ids.length < ids.length := Nat.mod_lt _ hlen0
    by_cases hz : i % ids.length = 0
    · rw [if_pos hz]
      have hpf : (LinkedList.pop_front a l).1 = some (getN a ids[0]).val := by
        simp [LinkedList.pop_front, hhead]
      constructor
      · simp [hpf, hemp]
      · intro v hv
        have hn1 : ids.length = 1 := by rw [hlx, hv]; rfl
        have hnext : (getN a ids[0]).next = none := by
          rw [(h.get hi0).2.1]
          exact List.getElem?_eq_none (by omega)
        have hval : (getN a ids[0]).val = v := by
          rw [(h.get hi0).1, hv]
          rfl
        refine ⟨?_, ?_, ?_⟩
        · rw [hpf, hval]
        · simp [LinkedList.pop_front, hhead, hnext]
        · simp [LinkedList.pop_front, hhead, hnext]
    · rw [if_neg hz]
      by_cases hl : i % ids.length = ids.length - 1
      · rw [if_pos hl]
        have hn1lt : ids.length - 1 < ids.length := by omega
        have hlast : ids.getLast? = some (ids[ids.length - 1]) := by
          rw [List.getLast?_eq_getElem?]
          exact List.getElem?_eq_getElem hn1lt
        have htail : l.tail = some (ids[ids.length - 1]) := by rw [h.2.1]; exact hlast
        have hpb : (LinkedList.pop_back a l).1 = some (getN a (ids[ids.length - 1])).val := by
          simp [LinkedList.pop_back, htail]
        constructor
        · simp [hpb, hemp]
        · intro v hv
          have hn1 : ids.length = 1 := by rw [hlx, hv]; rfl
          omega
      · rw [if_neg hl]
        have hn3 : 3 ≤ ids.length := by omega
        have hcf : LinkedList.cursor_front_mut a l =
            some ⟨l.head, 0, LinkedList.len a l⟩ := by
          rw [LinkedList.cursor_front_mut, hhead]
        rw [hcf]
        simp only []
        have hsl : (CursorMut.step_by a l ⟨l.head, 0, LinkedList.len a l⟩
            (i % ids.length - 1)).length = ids.length := by
          rw [CursorMut.step_by_length]
          exact hlenv
        have hrem := CursorMut.remove_fst
          (a := a) (l := l)
          (c := CursorMut.step_by a l ⟨l.head, 0, LinkedList.len a l⟩ (i % ids.length - 1))
          (by omega)
        constructor
        · simp [hrem, hemp]
        · intro v hv
          have hn1 : ids.length = 1 := by rw [hlx, hv]; rfl
          omega

/-- Witness for C10: `remove_at 5` on the one-element list `[7]` succeeds,
returns 7 and empties the list, even though a cursor `remove()` would refuse. -/
theorem remove_at_err_iff_empty_witness :
    ((LinkedList.remove_at [⟨7, none, none⟩] ⟨some 0, some 0⟩ 5).1 = .error .mk ↔
      ([7] : List Int) = []) ∧
    (∀ v : Int, ([7] : List Int) = [v] →
      (LinkedList.remove_at [⟨7, none, none⟩] ⟨some 0, some 0⟩ 5).1 = .ok v ∧
      (LinkedList.remove_at [⟨7, none, none⟩] ⟨some 0, some 0⟩ 5).2.2.head = none ∧
      (LinkedList.remove_at [⟨7, none, none⟩] ⟨some 0, some 0⟩ 5).2.2.tail = none) :=
  @remove_at_err_iff_empty [⟨7, none, none⟩] ⟨some 0, some 0⟩ [0] [7] (by decide) 5

/-- Claim C6.  For a mutable cursor at index `j` of a well-formed list and a
non-empty well-formed `other` list (disjoint node storage), `splice(other)`
produces the forward element sequence: first `j+1` original elements, then
`other`'s elements in order, then the remaining original elements; the cursor
ends bound to the former tail of `other` with index `j + m` and length
`n + m`; and `other` is left empty. -/
theorem splice_spec {a : Arena} {l : LinkedList} {ids idsB : List Nat} {xs ys : List Int}
    {c : CursorMut} {j : Nat} {other : LinkedList}
    (h : CursorMutOK a l ids xs c j) (ho : Represents a other idsB ys)
    (hdisj : ∀ i ∈ idsB, i ∉ ids) (hne : ys ≠ []) :
    fwdChain (CursorMut.splice a l c other).1 (CursorMut.splice a l c other).2.1.head
      (ids.take (j + 1) ++ idsB ++ ids.drop (j + 1))
      (xs.take (j + 1) ++ ys ++ xs.drop (j + 1)) none ∧
    (CursorMut.splice a l c other).2.2.1.curr = idsB.getLast? ∧
    (CursorMut.splice a l c other).2.2.1.index = j + ys.length ∧
    (CursorMut.splice a l c other).2.2.1.length = xs.length + ys.length ∧
    (CursorMut.splice a l c other).2.2.2 = ⟨none, none⟩ := by
  obtain ⟨hr, hcurr, hidx, hjn, hlen⟩ := h
  have hnodup : ids.Nodup := hr.2.2.2.1
  have hBnodup : idsB.Nodup := ho.2.2.2.1
  have hlx := hr.length_eq
  have hBlx := ho.length_eq
  have hBne : idsB ≠ [] := by
    intro h0
    rw [h0] at hBlx
    exact hne (List.length_eq_zero.mp hBlx.symm)
  have hm0 : 0 < idsB.length := List.length_pos.mpr hBne
  have hB0 : idsB[0]? = some idsB[0] := List.getElem?_eq_getElem hm0
  have hBhead : other.head = some idsB[0] := by rw [ho.head_eq]; exact hB0
  have hm1lt : idsB.length - 1 < idsB.length := by omega
  have hBm : idsB[idsB.length - 1]? = some (idsB[idsB.length - 1]) :=
    List.getElem?_eq_getElem hm1lt
  have hBtail : other.tail = some (idsB[idsB.length - 1]) := by
    rw [ho.2.1, List.getLast?_eq_getElem?]
    exact hBm
  have hij : ids[j]? = some ids[j] := List.getElem?_eq_getElem hjn
  have hget := hr.get hij
  have hcurr2 : c.curr = some ids[j] := hcurr.trans hij
  have hjm : ids[j] ∈ ids := List.getElem_mem hjn
  have hjnotB : ids[j] ∉ idsB := fun hmem => hdisj _ hmem hjm
  have hjlt : ids[j] < a.length := hr.2.2.2.2 _ hjm
  have hotm : idsB[idsB.length - 1] ∈ idsB := List.getElem_mem hm1lt
  have hotlt : idsB[idsB.length - 1] < a.length := ho.2.2.2.2 _ hotm
  have hotni : idsB[idsB.length - 1] ∉ ids := hdisj _ hotm
  -- decomposition of the A chain at position j
  have htakej1 : ids.take (j + 1) = ids.take j ++ [ids[j]] := by
    rw [List.take_succ, hij]
    simp
  have hjx : j < xs.length := by omega
  have htakexj1 : xs.take (j + 1) = xs.take j ++ [xs.getD j 0] := by
    rw [List.take_succ, List.getElem?_eq_getElem hjx]
    simp [List.getD_eq_getElem?_getD, List.getElem?_eq_getElem hjx]
  have hfront := fwdChain_take hr.1 j
  rw [ptrOf_drop_none, hij] at hfront
  have hjnotintake : ids[j] ∉ ids.take j := nodup_not_mem_take hnodup hij (le_refl _)
  -- decomposition of the B chain at its last element
  have hBtake2 : idsB.take (idsB.length - 1) ++ [idsB[idsB.length - 1]] = idsB := by
    have h1 : idsB.take ((idsB.length - 1) + 1) =
        idsB.take (idsB.length - 1) ++ [idsB[idsB.length - 1]] := by
      rw [List.take_succ, hBm]
      simp
    have h2 : (idsB.length - 1) + 1 = idsB.length := by omega
    rw [h2, List.take_length] at h1
    exact h1.symm
  have hylt : idsB.length - 1 < ys.length := by omega
  have hysBtake2 : ys.take (idsB.length - 1) ++ [ys.getD (idsB.length - 1) 0] = ys := by
    have h1 : ys.take ((idsB.length - 1) + 1) =
        ys.take (idsB.length - 1) ++ [ys.getD (idsB.length - 1) 0] := by
      rw [List.take_succ, List.getElem?_eq_getElem hylt]
      simp [List.getD_eq_getElem?_getD, List.getElem?_eq_getElem hylt]
    have h2 : (idsB.length - 1) + 1 = ys.length := by omega
    rw [h2, List.take_length] at h1
    exact h1.symm
  have hBfront := fwdChain_take ho.1 (idsB.length - 1)
  rw [ptrOf_drop_none, hBm] at hBfront
  have hBfronthead : fwdChain a (some idsB[0]) (idsB.take (idsB.length - 1))
      (ys.take (idsB.length - 1)) (some (idsB[idsB.length - 1])) := by
    rw [← hBhead]
    exact hBfront
  have hBsingval : (getN a (idsB[idsB.length - 1])).val = ys.getD (idsB.length - 1) 0 :=
    (ho.get hBm).1
  have hotnotintakeB : idsB[idsB.length - 1] ∉ idsB.take (idsB.length - 1) :=
    nodup_not_mem_take hBnodup hBm (le_refl _)
  by_cases hjl : j = ids.length - 1
  · -- the cursor is at the tail: curr.next is null
    have hnext : (getN a ids[j]).next = none := by
      rw [hget.2.1]
      exact List.getElem?_eq_none (by omega)
    have hdropnil : ids.drop (j + 1) = [] := List.drop_eq_nil_of_le (by omega)
    have hdropxnil : xs.drop (j + 1) = [] := List.drop_eq_nil_of_le (by omega)
    simp only [CursorMut.splice]
    rw [if_neg (by simp [hBhead]), ho.len_eq, hcurr2]
    simp only [getO]
    rw [hnext]
    simp only []
    rw [hBhead, hBtail]
    refine ⟨?_, by rw [List.getLast?_eq_getElem?, hBm], by rw [hidx, hBlx],
      by rw [hlen, hlx, hBlx], trivial⟩
    -- chain: (take j ++ [ids[j]]) ++ idsB, with drop (j+1) empty
    have hfront2 := fwdChain_set_notmem (ids[j])
      ⟨(getN a ids[j]).val, (getN a ids[j]).prev, some idsB[0]⟩ hjnotintake hfront
    have hsing2 : fwdChain (setN a (ids[j])
        ⟨(getN a ids[j]).val, (getN a ids[j]).prev, some idsB[0]⟩)
        (some ids[j]) [ids[j]] [xs.getD j 0] (some idsB[0]) := by
      refine ⟨rfl, ?_, ?_⟩
      · rw [getN_setN_self hjlt]
        exact hget.1
      · rw [getN_setN_self hjlt]
        simp
    have hBchain : fwdChain a (some idsB[0]) idsB ys none := by
      rw [← hBhead]
      exact ho.1
    have hB2 := fwdChain_set_notmem (ids[j])
      ⟨(getN a ids[j]).val, (getN a ids[j]).prev, some idsB[0]⟩ hjnotB hBchain
    have hcomp := fwdChain_append (fwdChain_append hfront2 hsing2) hB2
    rw [htakej1, htakexj1, hdropnil, hdropxnil, List.append_nil, List.append_nil]
    exact hcomp
  · -- the cursor has a live successor nx = ids[j+1]
    have hj1lt : j + 1 < ids.length := by omega
    have hijnx : ids[j + 1]? = some (ids[j + 1]) := List.getElem?_eq_getElem hj1lt
    have hnext : (getN a ids[j]).next = some (ids[j + 1]) := by
      rw [hget.2.1]
      exact hijnx
    have hnxm : ids[j + 1] ∈ ids := List.getElem_mem hj1lt
    have hnxlt : ids[j + 1] < a.length := hr.2.2.2.2 _ hnxm
    have hnxnotB : ids[j + 1] ∉ idsB := fun hmem => hdisj _ hmem hnxm
    have hnxnej : ids[j] ≠ ids[j + 1] := nodup_getElem?_ne hnodup hij hijnx (by omega)
    simp only [CursorMut.splice]
    rw [if_neg (by simp [hBhead]), ho.len_eq, hcurr2]
    simp only [getO]
    rw [hnext]
    simp only []
    rw [hBtail]
    simp only []
    have hread : (getN (setN a (ids[j + 1])
        ⟨(getN a (ids[j + 1])).val, some (idsB[idsB.length - 1]), (getN a (ids[j + 1])).next⟩)
        (ids[j])).next = some (ids[j + 1]) := by
      rw [getN_setN_ne hnxnej]
      exact hnext
    rw [hread, hBhead]
    refine ⟨?_, by rw [List.getLast?_eq_getElem?, hBm], by rw [hidx, hBlx],
      by rw [hlen, hlx, hBlx], trivial⟩
    -- abbreviate the three successive arenas
    set nd1 : Node :=
      ⟨(getN a (ids[j + 1])).val, some (idsB[idsB.length - 1]), (getN a (ids[j + 1])).next⟩
      with hnd1
    set a1 : Arena := setN a (ids[j + 1]) nd1 with ha1
    set nd2 : Node :=
      ⟨(getN a1 (idsB[idsB.length - 1])).val, (getN a1 (idsB[idsB.length - 1])).prev,
        some (ids[j + 1])⟩ with hnd2
    set a2 : Arena := setN a1 (idsB[idsB.length - 1]) nd2 with ha2
    set nd3 : Node := ⟨(getN a2 (ids[j])).val, (getN a2 (ids[j])).prev, some idsB[0]⟩ with hnd3
    set a3 : Arena := setN a2 (ids[j]) nd3 with ha3
    have hjneot : ids[j] ≠ idsB[idsB.length - 1] := fun he => hjnotB (he ▸ hotm)
    have hotnej : idsB[idsB.length - 1] ≠ ids[j] := fun he => hjnotB (he ▸ hotm)
    have hotnenx : idsB[idsB.length - 1] ≠ ids[j + 1] := fun he => hnxnotB (he ▸ hotm)
    have ha1len : a1.length = a.length := by rw [ha1]; simp
    have ha2len : a2.length = a.length := by rw [ha2]; simp [ha1len]
    -- front part: take j, ending at ids[j], unchanged in a3
    have hfront1 := fwdChain_set_keep (ids[j + 1]) nd1 (by rw [hnd1]) (by rw [hnd1]) hnxlt
      hfront
    have hfront2 := fwdChain_set_notmem (idsB[idsB.length - 1]) nd2
      (fun hmem => hotni (List.take_subset _ _ hmem)) hfront1
    have hfront3 := fwdChain_set_notmem (ids[j]) nd3 hjnotintake hfront2
    -- the spliced-in node ids[j], now pointing at the head of B
    have hreadj : getN a3 (ids[j]) = nd3 := by
      rw [ha3]
      exact getN_setN_self (by rw [ha2len]; exact hjlt)
    have hjread2 : getN a2 (ids[j]) = getN a (ids[j]) := by
      rw [ha2, getN_setN_ne hjneot, ha1, getN_setN_ne hnxnej]
    have hsing3 : fwdChain a3 (some ids[j]) [ids[j]] [xs.getD j 0] (some idsB[0]) := by
      refine ⟨rfl, ?_, ?_⟩
      · rw [hreadj, hnd3, hjread2]
        exact hget.1
      · rw [hreadj]
        simp [hnd3]
    -- the B chain, its last node now pointing at nx
    have hBf1 := fwdChain_set_keep (ids[j + 1]) nd1 (by rw [hnd1]) (by rw [hnd1]) hnxlt
      hBfronthead
    have hBf2 := fwdChain_set_notmem (idsB[idsB.length - 1]) nd2 hotnotintakeB hBf1
    have hBf3 := fwdChain_set_notmem (ids[j]) nd3
      (fun hmem => hjnotB (List.take_subset _ _ hmem)) hBf2
    have hreadot : getN a3 (idsB[idsB.length - 1]) = nd2 := by
      rw [ha3, getN_setN_ne hotnej, ha2]
      exact getN_setN_self (by rw [ha1len]; exact hotlt)
    have hotval : nd2.val = ys.getD (idsB.length - 1) 0 := by
      rw [hnd2, ha1, getN_setN_ne hotnenx]
      exact hBsingval
    have hsingot : fwdChain a3 (some (idsB[idsB.length - 1])) [idsB[idsB.length - 1]]
        [ys.getD (idsB.length - 1) 0] (some (ids[j + 1])) := by
      refine ⟨rfl, ?_, ?_⟩
      · rw [hreadot]
        exact hotval
      · rw [hreadot]
        simp [hnd2]
    have hB2 := fwdChain_append hBf3 hsingot
    rw [hBtake2, hysBtake2] at hB2
    -- the detached rest of A, from nx on, with only its first node's prev touched
    have hdrop := fwdChain_drop hr.1 (j + 1)
    rw [ptrOf_drop_none, hijnx] at hdrop
    have htail1 := fwdChain_set_keep (ids[j + 1]) nd1 (by rw [hnd1]) (by rw [hnd1]) hnxlt
      hdrop
    have htail2 := fwdChain_set_notmem (idsB[idsB.length - 1]) nd2
      (fun hmem => hotni (List.drop_subset _ _ hmem)) htail1
    have htail3 := fwdChain_set_notmem (ids[j]) nd3
      (nodup_not_mem_drop hnodup hij (by omega)) htail2
    have hcomp := fwdChain_append (fwdChain_append (fwdChain_append hfront3 hsing3) hB2) htail3
    rw [htakej1, htakexj1]
    exact hcomp

/-- Witness for C6: the spec's own scenario, `[10, 11]` spliced after index 1
of `[1, 2, 3, 4, 5]`, giving `[1, 2, 10, 11, 3, 4, 5]` with the cursor on 11
at index 3 and length 7. -/
theorem splice_spec_witness :
    (let a : Arena := [⟨1, none, some 1⟩, ⟨2, some 0, some 2⟩, ⟨3, some 1, some 3⟩,
       ⟨4, some 2, some 4⟩, ⟨5, some 3, none⟩, ⟨10, none, some 6⟩, ⟨11, some 5, none⟩]
     let l : LinkedList := ⟨some 0, some 4⟩
     let other : LinkedList := ⟨some 5, some 6⟩
     let c : CursorMut := ⟨some 1, 1, 5⟩
     fwdChain (CursorMut.splice a l c other).1 (CursorMut.splice a l c other).2.1.head
       (([0, 1, 2, 3, 4] : List Nat).take (1 + 1) ++ [5, 6] ++
         ([0, 1, 2, 3, 4] : List Nat).drop (1 + 1))
       (([1, 2, 3, 4, 5] : List Int).take (1 + 1) ++ [10, 11] ++
         ([1, 2, 3, 4, 5] : List Int).drop (1 + 1)) none ∧
     (CursorMut.splice a l c other).2.2.1.curr = ([5, 6] : List Nat).getLast? ∧
     (CursorMut.splice a l c other).2.2.1.index = 1 + ([10, 11] : List Int).length ∧
     (CursorMut.splice a l c other).2.2.1.length =
       ([1, 2, 3, 4, 5] : List Int).length + ([10, 11] : List Int).length ∧
     (CursorMut.splice a l c other).2.2.2 = ⟨none, none⟩) :=
  @splice_spec
    [⟨1, none, some 1⟩, ⟨2, some 0, some 2⟩, ⟨3, some 1, some 3⟩, ⟨4, some 2, some 4⟩,
      ⟨5, some 3, none⟩, ⟨10, none, some 6⟩, ⟨11, some 5, none⟩]
    ⟨some 0, some 4⟩ [0, 1, 2, 3, 4] [5, 6] [1, 2, 3, 4, 5] [10, 11] ⟨some 1, 1, 5⟩ 1
    ⟨some 5, some 6⟩ (by decide) (by decide) (by decide) (by decide)
